import Mathlib

/-!
Verification of the FAISS product-search service (`faiss_service.py`).

The service keeps two module-level globals, `faiss_index` (an exact inner-product
index over L2-normalized image embeddings) and `product_mapping` (one metadata
record per stored vector).  `build_faiss_index` rebuilds both from the catalog,
`search_product` answers k-NN queries with per-product de-duplication, and
`health_check` / `rebuild_index` are the remaining HTTP endpoints.

The embedding below is shallow: embeddings are rational vectors (the service
never branches on their numeric values except in normalization, which is modelled
separately over the reals), the filesystem and the external embedding model are
passed in as data (`CatalogProduct.refDir`, `RefImage.embedResult`), and each
endpoint is a pure function of the global `ServiceState`.
-/

namespace FaissService

/-- `EMBEDDING_DIM = 576`, the configured MobileNetV3-Small feature size. -/
def EMBEDDING_DIM : Nat := 576

/-- A stored embedding vector (numeric values are opaque to the index logic). -/
abbrev Embedding := List Rat

/-- One entry of the global `product_mapping` list: the dict appended at
`faiss_service.py:142-147`. -/
structure RefEntry where
  product_id : String
  product_name : String
  ref_file : String
  price : Option Rat
deriving DecidableEq

/-- The FAISS flat inner-product index: after `add`, just the stored vectors. -/
structure FaissIndex where
  vectors : List Embedding
deriving DecidableEq

/-- The module-level mutable globals `faiss_index` and `product_mapping`
(`faiss_service.py:40-41`).  `none` models Python `None` (state before any
successful build). -/
structure ServiceState where
  faiss_index : Option FaissIndex
  product_mapping : List RefEntry
deriving DecidableEq

/-- One file in a product's reference directory.  `embedResult = none` models
`Image.open`/`extract_embedding` raising for that file (the `except` branch at
`faiss_service.py:148-149`); `some e` models a successful embedding `e`. -/
structure RefImage where
  fname : String
  embedResult : Option Embedding
deriving DecidableEq

/-- One catalog entry together with its reference directory contents.
`refDir = none` models `os.path.exists(ref_dir)` being false
(`faiss_service.py:128`). -/
structure CatalogProduct where
  pid : Option String
  name : String
  price : Option Rat
  refDir : Option (List RefImage)
deriving DecidableEq

/-- `product.get('id', product['name'].replace(' ', '_').lower())`
(`faiss_service.py:125`). -/
def productId (p : CatalogProduct) : String :=
  match p.pid with
  | some i => i
  | none => (p.name.replace " " "_").toLower

/-- Python `str.endswith`: suffix test, expressed on the character sequence. -/
def strEndsWith (s p : String) : Bool := p.data.isSuffixOf s.data

/-- The extension filter `f.endswith(('.jpg', '.jpeg', '.png'))`
(`faiss_service.py:133`). -/
def isImageFile (f : String) : Bool :=
  strEndsWith f ".jpg" || strEndsWith f ".jpeg" || strEndsWith f ".png"

/-- The inner loop of `build_faiss_index` (`faiss_service.py:136-149`): for each
reference file, try to embed it; on success append the embedding and, in
lockstep, the metadata record; on failure skip the file. -/
def processRefs (pid pname : String) (price : Option Rat) :
    List RefImage → List Embedding × List RefEntry
  | [] => ([], [])
  | f :: rest =>
    let acc := processRefs pid pname price rest
    match f.embedResult with
    | none => acc
    | some e => (e :: acc.1, ⟨pid, pname, f.fname, price⟩ :: acc.2)

/-- One iteration of the catalog loop (`faiss_service.py:124-149`): skip the
product when its reference directory is missing, otherwise process its image
files. -/
def processProduct (p : CatalogProduct) : List Embedding × List RefEntry :=
  match p.refDir with
  | none => ([], [])
  | some files =>
    processRefs (productId p) p.name p.price (files.filter (fun f => isImageFile f.fname))

/-- The whole accumulation pass of `build_faiss_index` over the catalog:
the `embeddings` list and the new `product_mapping` list it builds. -/
def buildIndexData : List CatalogProduct → List Embedding × List RefEntry
  | [] => ([], [])
  | p :: rest =>
    let d := processProduct p
    let acc := buildIndexData rest
    (d.1 ++ acc.1, d.2 ++ acc.2)

/-- `build_faiss_index` (`faiss_service.py:107-164`) as a state transformer.
`catalog = none` models the catalog file being absent (early return at line 116,
before the globals are touched).  Otherwise the global `product_mapping` is
rebuilt from scratch (line 122 rebinds it before the loop), and only when at
least one embedding was extracted is `faiss_index` replaced (lines 151-161);
on the empty-result path the old `faiss_index` is kept while `product_mapping`
holds whatever the loop accumulated (nothing). -/
def build_faiss_index (st : ServiceState) (catalog : Option (List CatalogProduct)) :
    ServiceState :=
  match catalog with
  | none => st
  | some cat =>
    let d := buildIndexData cat
    if d.1 = [] then ⟨st.faiss_index, d.2⟩
    else ⟨some ⟨d.1⟩, d.2⟩

/-- The JSON body returned by the `/index/rebuild` endpoint. -/
structure RebuildResponse where
  success : Bool
  index_size : Nat
deriving DecidableEq

/-- `rebuild_index` (`faiss_service.py:253-264`): runs `build_faiss_index` and
reports `success: True` with the current index size (`ntotal` of whatever index
is active afterwards, `0` when none). -/
def rebuild_index (st : ServiceState) (catalog : Option (List CatalogProduct)) :
    ServiceState × RebuildResponse :=
  let st2 := build_faiss_index st catalog
  (st2, ⟨true, match st2.faiss_index with | some idx => idx.vectors.length | none => 0⟩)

/-- The JSON body returned by the `/health` endpoint. -/
structure HealthResponse where
  status : String
  service : String
  index_size : Nat
  products : Nat
deriving DecidableEq

/-- `health_check` (`faiss_service.py:175-183`): always answers, with
`index_size = faiss_index.ntotal if faiss_index else 0` and
`products = len(set(p['product_id'] for p in product_mapping)) if product_mapping else 0`. -/
def health_check (st : ServiceState) : HealthResponse :=
  ⟨"ok", "FAISS Product Search",
    match st.faiss_index with | some idx => idx.vectors.length | none => 0,
    if st.product_mapping.isEmpty then 0
    else ((st.product_mapping.map (fun r => r.product_id)).dedup).length⟩

/-- Inner product of two vectors, the similarity score used by `IndexFlatIP`. -/
def innerProduct (q v : Embedding) : Rat :=
  (List.zipWith (fun a b => a * b) q v).sum

/-- Ranking order on `(score, insertion index)` pairs: higher score first,
ties broken by smaller insertion index. -/
def rankLE (a b : Rat × Nat) : Prop :=
  b.1 < a.1 ∨ (a.1 = b.1 ∧ a.2 ≤ b.2)

instance : DecidableRel rankLE := fun a b => by
  unfold rankLE
  infer_instance

instance : IsTotal (Rat × Nat) rankLE where
  total a b := by
    rcases lt_trichotomy a.1 b.1 with h | h | h
    · exact Or.inr (Or.inl h)
    · rcases Nat.le_total a.2 b.2 with h2 | h2
      · exact Or.inl (Or.inr ⟨h, h2⟩)
      · exact Or.inr (Or.inr ⟨h.symm, h2⟩)
    · exact Or.inl (Or.inl h)

instance : IsTrans (Rat × Nat) rankLE where
  trans a b c hab hbc := by
    rcases hab with h | ⟨h1, h2⟩ <;> rcases hbc with h' | ⟨h1', h2'⟩
    · exact Or.inl (lt_trans h' h)
    · exact Or.inl (h1' ▸ h)
    · exact Or.inl (h1 ▸ h')
    · exact Or.inr ⟨h1.trans h1', h2.trans h2'⟩

/-- Modelled from the spec: the exact k-nearest-neighbor scan performed by
`faiss_index.search` at `faiss_service.py:214` is FAISS library code
(`IndexFlatIP`), not part of this repository.  Per the spec it computes the
inner product of the query against every stored vector and returns the top `k`
by descending score, ties broken by original insertion order (stable order). -/
def knnSearch (vectors : List Embedding) (q : Embedding) (k : Nat) : List (Rat × Nat) :=
  (List.insertionSort rankLE
    ((vectors.enum).map (fun p => (innerProduct q p.2, p.1)))).take k

/-- A result dict of the `/search` endpoint (`faiss_service.py:229-235`). -/
structure SearchMatch where
  product_id : String
  product_name : String
  similarity : Rat
  ref_file : String
  price : Option Rat
deriving DecidableEq

/-- The aggregation loop of `search_product` (`faiss_service.py:217-239`):
walk the raw matches in order; drop out-of-range indices; emit a result the
first time a `product_id` is seen; stop as soon as `k` results are collected.
Ported statement by statement (the `len(results) >= k` break is checked on
every in-range iteration, after the seen-set test). -/
def aggregateAux (mapping : List RefEntry) (k : Nat) :
    List (Rat × Int) → List String → List SearchMatch → List SearchMatch
  | [], _, results => results
  | (dist, idx) :: rest, seen, results =>
    if idx < 0 ∨ (mapping.length : Int) ≤ idx then
      aggregateAux mapping k rest seen results
    else
      let info := mapping.getD idx.toNat ⟨"", "", "", none⟩
      if info.product_id ∈ seen then
        if k ≤ results.length then results
        else aggregateAux mapping k rest seen results
      else
        let results2 :=
          results ++ [⟨info.product_id, info.product_name, dist, info.ref_file, info.price⟩]
        if k ≤ results2.length then results2
        else aggregateAux mapping k rest (info.product_id :: seen) results2

/-- The aggregation step, started with empty `results` and `seen_products`. -/
def aggregate (mapping : List RefEntry) (k : Nat) (raw : List (Rat × Int)) :
    List SearchMatch :=
  aggregateAux mapping k raw [] []

/-- Score of the first in-range raw match whose mapped `product_id` is `pid`. -/
def firstHit (mapping : List RefEntry) (pid : String) : List (Rat × Int) → Option Rat
  | [] => none
  | (dist, idx) :: rest =>
    if idx < 0 ∨ (mapping.length : Int) ≤ idx then firstHit mapping pid rest
    else if (mapping.getD idx.toNat ⟨"", "", "", none⟩).product_id = pid then some dist
    else firstHit mapping pid rest

/-- Whether a raw match passes the defensive range check of `faiss_service.py:221`. -/
def inRange (mapping : List RefEntry) (m : Rat × Int) : Bool :=
  if m.2 < 0 ∨ (mapping.length : Int) ≤ m.2 then false else true

/-- An HTTP error response (`HTTPException`). -/
structure HTTPError where
  status_code : Nat
  detail : String
deriving DecidableEq

/-- The JSON body returned by a successful `/search` call (the `"matches"` key
carries the Python local `results` list). -/
structure SearchResponse where
  success : Bool
  results : List SearchMatch
deriving DecidableEq

/-- `search_product` (`faiss_service.py:186-250`): reject with 503 when no index
is active; otherwise decode and embed the uploaded image (failures become a 500,
the `except` at lines 248-250, modelled by the `decoded` argument), query the
index with `min(k, ntotal)`, and aggregate per product. -/
def search_product (st : ServiceState) (decoded : Except String Embedding) (k : Nat) :
    Except HTTPError SearchResponse :=
  match st.faiss_index with
  | none => Except.error ⟨503, "FAISS index not initialized"⟩
  | some idx =>
    match decoded with
    | Except.error e => Except.error ⟨500, e⟩
    | Except.ok q =>
      let hits := knnSearch idx.vectors q (min k idx.vectors.length)
      let raw := hits.map (fun h => (h.1, (h.2 : Int)))
      Except.ok ⟨true, aggregate st.product_mapping k raw⟩

/-- Sum of squared components of a real vector. -/
def sumSq (v : List ℝ) : ℝ := (v.map (fun x => x * x)).sum

/-- `np.linalg.norm(embedding)` (`faiss_service.py:100`): the L2 norm.
Floating-point values are modelled as real numbers. -/
noncomputable def l2norm (v : List ℝ) : ℝ := Real.sqrt (sumSq v)

/-- The normalization step of `extract_embedding` (`faiss_service.py:100-102`):
`if norm > 0: embedding = embedding / norm`, else the vector is left unchanged. -/
noncomputable def normalize (v : List ℝ) : List ℝ :=
  if 0 < l2norm v then v.map (fun x => x / l2norm v) else v

theorem sumSq_nonneg (v : List ℝ) : 0 ≤ sumSq v := by
  induction v with
  | nil => simp [sumSq]
  | cons x xs ih =>
    simp only [sumSq, List.map_cons, List.sum_cons]
    exact add_nonneg (mul_self_nonneg x) ih

theorem sumSq_map_div (v : List ℝ) (n : ℝ) :
    sumSq (v.map (fun x => x / n)) = sumSq v / (n * n) := by
  induction v with
  | nil => simp [sumSq]
  | cons x xs ih =>
    simp only [sumSq, List.map_cons, List.sum_cons] at ih ⊢
    rw [ih, div_mul_div_comm, add_div]

/-! ## Theorems -/

/-- Claim C9: rebuilding twice in succession from the same catalog and reference
inputs (the embedding function being deterministic, it is part of the fixed
input data) yields identical index contents and an identical product mapping:
`build_faiss_index` is idempotent as a state transformer. -/
theorem build_idempotent (st : ServiceState) (catalog : Option (List CatalogProduct)) :
    build_faiss_index (build_faiss_index st catalog) catalog = build_faiss_index st catalog := by
  cases catalog with
  | none => rfl
  | some cat =>
    simp only [build_faiss_index]
    by_cases h : (buildIndexData cat).1 = []
    · simp [h]
    · simp [h]

/-- Claim C2 (code bug evidence): with an active one-vector index and a
one-entry mapping, a rebuild over a catalog whose only product has no
reference directory extracts zero embeddings; the endpoint nevertheless
reports `success = true` (with the stale index's size), and the global
`product_mapping` has been cleared to `[]` while the old `faiss_index` is
kept — the previous index state does not remain unchanged and the caller does
not receive a failure. -/
theorem rebuild_empty_reports_success_and_clears_mapping :
    rebuild_index ⟨some ⟨[[1]]⟩, [⟨"mug", "Mug", "a.jpg", none⟩]⟩
        (some [⟨some "mug", "Mug", none, none⟩]) =
      (⟨some ⟨[[1]]⟩, []⟩, ⟨true, 1⟩) := by
  rfl

/-- Claim C10: the health endpoint is total even before any successful build:
with no active index and an empty mapping it answers with status `"ok"`,
index size `0` and product count `0`, instead of the 503 "not ready" error
that `search_product` raises in the same state. -/
theorem health_check_uninitialized (st : ServiceState)
    (h1 : st.faiss_index = none) (h2 : st.product_mapping = []) :
    health_check st = ⟨"ok", "FAISS Product Search", 0, 0⟩ := by
  simp [health_check, h1, h2]

/-- Witness for C10: the startup state `⟨none, []⟩` satisfies both hypotheses. -/
theorem health_check_uninitialized_witness :
    (ServiceState.mk none []).faiss_index = none ∧
      (ServiceState.mk none []).product_mapping = [] ∧
      health_check ⟨none, []⟩ = ⟨"ok", "FAISS Product Search", 0, 0⟩ :=
  ⟨rfl, rfl, health_check_uninitialized ⟨none, []⟩ rfl rfl⟩

/-- Claim C5: a search issued while no successful build has completed
(`faiss_index is None`) fails with the 503 "FAISS index not initialized"
error and never returns a success response. -/
theorem search_not_ready (st : ServiceState) (decoded : Except String Embedding)
    (k : Nat) (h : st.faiss_index = none) :
    search_product st decoded k = Except.error ⟨503, "FAISS index not initialized"⟩ ∧
      ∀ resp : SearchResponse, search_product st decoded k ≠ Except.ok resp := by
  constructor
  · simp [search_product, h]
  · intro resp hresp
    rw [search_product, h] at hresp
    exact Except.noConfusion hresp

/-- Witness for C5: the startup state with a decodable query image. -/
theorem search_not_ready_witness :
    (ServiceState.mk none []).faiss_index = none ∧
      search_product ⟨none, []⟩ (Except.ok []) 5 =
        Except.error ⟨503, "FAISS index not initialized"⟩ :=
  ⟨rfl, (search_not_ready ⟨none, []⟩ (Except.ok []) 5 rfl).1⟩

/-- Claim C7: normalization is total (it is a function on all real vectors);
when the L2 norm is positive every component is divided by the norm and the
resulting vector has L2 norm exactly 1 (hence within 1e-5); when the norm is
zero the vector is returned unchanged.  Floats are modelled as reals. -/
theorem normalize_spec (v : List ℝ) :
    (0 < l2norm v →
      normalize v = v.map (fun x => x / l2norm v) ∧ l2norm (normalize v) = 1) ∧
    (l2norm v = 0 → normalize v = v) := by
  constructor
  · intro h
    refine ⟨if_pos h, ?_⟩
    rw [normalize, if_pos h]
    unfold l2norm
    rw [sumSq_map_div]
    have hsq : Real.sqrt (sumSq v) * Real.sqrt (sumSq v) = sumSq v :=
      Real.mul_self_sqrt (sumSq_nonneg v)
    have hne : sumSq v ≠ 0 := by
      intro h0
      rw [l2norm, h0, Real.sqrt_zero] at h
      exact lt_irrefl 0 h
    rw [hsq, div_self hne, Real.sqrt_one]
  · intro h
    rw [normalize, if_neg]
    rw [h]
    exact lt_irrefl 0

/-- Witness for C7: the vector `[3, 4]` has positive norm (5) and normalizes to
a unit vector. -/
theorem normalize_spec_witness :
    0 < l2norm [3, 4] ∧ l2norm (normalize [3, 4]) = 1 := by
  have h : 0 < l2norm [3, 4] := by
    unfold l2norm
    apply Real.sqrt_pos.mpr
    norm_num [sumSq]
  exact ⟨h, ((normalize_spec [3, 4]).1 h).2⟩

theorem aggregateAux_length_le (mapping : List RefEntry) (k : Nat)
    (raw : List (Rat × Int)) :
    ∀ (seen : List String) (results : List SearchMatch),
      results.length < k → (aggregateAux mapping k raw seen results).length ≤ k := by
  induction raw with
  | nil =>
    intro seen results h
    exact Nat.le_of_lt h
  | cons m rest ih =>
    intro seen results h
    obtain ⟨dist, idx⟩ := m
    simp only [aggregateAux]
    split
    · exact ih seen results h
    · split
      · split
        · exact Nat.le_of_lt h
        · exact ih seen results h
      · split
        next hk2 =>
          simp only [List.length_append, List.length_singleton]
          omega
        next hk2 =>
          refine ih _ _ ?_
          simp only [List.length_append, List.length_singleton] at hk2 ⊢
          omega

theorem aggregateAux_nodup (mapping : List RefEntry) (k : Nat)
    (raw : List (Rat × Int)) :
    ∀ (seen : List String) (results : List SearchMatch),
      (results.map (fun r => r.product_id)).Nodup →
      (∀ r ∈ results, r.product_id ∈ seen) →
      ((aggregateAux mapping k raw seen results).map (fun r => r.product_id)).Nodup := by
  induction raw with
  | nil =>
    intro seen results h1 _
    exact h1
  | cons m rest ih =>
    intro seen results h1 h2
    obtain ⟨dist, idx⟩ := m
    simp only [aggregateAux]
    split
    · exact ih seen results h1 h2
    · split
      · split
        · exact h1
        · exact ih seen results h1 h2
      next hnew =>
        have hnotin : (mapping.getD idx.toNat ⟨"", "", "", none⟩).product_id ∉
            results.map (fun r => r.product_id) := by
          intro hmem
          obtain ⟨r, hr, hpid⟩ := List.mem_map.mp hmem
          exact hnew (hpid ▸ h2 r hr)
        have h1' : ((results ++
            ([⟨(mapping.getD idx.toNat ⟨"", "", "", none⟩).product_id,
              (mapping.getD idx.toNat ⟨"", "", "", none⟩).product_name, dist,
              (mapping.getD idx.toNat ⟨"", "", "", none⟩).ref_file,
              (mapping.getD idx.toNat ⟨"", "", "", none⟩).price⟩] : List SearchMatch)).map
              (fun r => r.product_id)).Nodup := by
          simp only [List.map_append, List.map_cons, List.map_nil, List.nodup_append]
          refine ⟨h1, List.nodup_singleton _, ?_⟩
          intro a ha hb
          simp only [List.mem_singleton] at hb
          exact hnotin (hb ▸ ha)
        split
        · exact h1'
        · refine ih _ _ h1' ?_
          intro r hr
          rcases List.mem_append.mp hr with hmem | hmem
          · exact List.mem_cons_of_mem _ (h2 r hmem)
          · simp only [List.mem_singleton] at hmem
            subst hmem
            exact List.mem_cons_self _ _

theorem aggregateAux_firstHit (mapping : List RefEntry) (k : Nat)
    (raw : List (Rat × Int)) :
    ∀ (seen : List String) (results : List SearchMatch),
      ∀ r ∈ aggregateAux mapping k raw seen results,
        r ∈ results ∨
          (r.product_id ∉ seen ∧ firstHit mapping r.product_id raw = some r.similarity) := by
  induction raw with
  | nil =>
    intro seen results r hr
    exact Or.inl hr
  | cons m rest ih =>
    intro seen results r hr
    obtain ⟨dist, idx⟩ := m
    simp only [aggregateAux] at hr
    by_cases hrange : idx < 0 ∨ (mapping.length : Int) ≤ idx
    · rw [if_pos hrange] at hr
      rcases ih seen results r hr with hmem | ⟨h1, h2⟩
      · exact Or.inl hmem
      · refine Or.inr ⟨h1, ?_⟩
        rw [firstHit, if_pos hrange]
        exact h2
    · rw [if_neg hrange] at hr
      by_cases hseen : (mapping.getD idx.toNat ⟨"", "", "", none⟩).product_id ∈ seen
      · rw [if_pos hseen] at hr
        by_cases hk2 : k ≤ results.length
        · rw [if_pos hk2] at hr
          exact Or.inl hr
        · rw [if_neg hk2] at hr
          rcases ih seen results r hr with hmem | ⟨h1, h2⟩
          · exact Or.inl hmem
          · refine Or.inr ⟨h1, ?_⟩
            have hne : ¬ ((mapping.getD idx.toNat ⟨"", "", "", none⟩).product_id =
                r.product_id) := by
              intro heq
              exact h1 (heq ▸ hseen)
            rw [firstHit, if_neg hrange, if_neg hne]
            exact h2
      · rw [if_neg hseen] at hr
        by_cases hk2 : k ≤ (results ++
            ([⟨(mapping.getD idx.toNat ⟨"", "", "", none⟩).product_id,
              (mapping.getD idx.toNat ⟨"", "", "", none⟩).product_name, dist,
              (mapping.getD idx.toNat ⟨"", "", "", none⟩).ref_file,
              (mapping.getD idx.toNat ⟨"", "", "", none⟩).price⟩] : List SearchMatch)).length
        · rw [if_pos hk2] at hr
          rcases List.mem_append.mp hr with hmem | hmem
          · exact Or.inl hmem
          · simp only [List.mem_singleton] at hmem
            subst hmem
            refine Or.inr ⟨hseen, ?_⟩
            rw [firstHit, if_neg hrange, if_pos rfl]
        · rw [if_neg hk2] at hr
          rcases ih _ _ r hr with hmem | ⟨h1, h2⟩
          · rcases List.mem_append.mp hmem with hmem2 | hmem2
            · exact Or.inl hmem2
            · simp only [List.mem_singleton] at hmem2
              subst hmem2
              refine Or.inr ⟨hseen, ?_⟩
              rw [firstHit, if_neg hrange, if_pos rfl]
          · have hne : r.product_id ∉ seen := fun hx => h1 (List.mem_cons_of_mem _ hx)
            have hne2 : (mapping.getD idx.toNat ⟨"", "", "", none⟩).product_id ≠
                r.product_id := fun heq => h1 (heq ▸ List.mem_cons_self _ _)
            refine Or.inr ⟨hne, ?_⟩
            rw [firstHit, if_neg hrange, if_neg hne2]
            exact h2

theorem aggregateAux_filter (mapping : List RefEntry) (k : Nat)
    (raw : List (Rat × Int)) :
    ∀ (seen : List String) (results : List SearchMatch),
      aggregateAux mapping k (raw.filter (inRange mapping)) seen results =
        aggregateAux mapping k raw seen results := by
  induction raw with
  | nil =>
    intro seen results
    rfl
  | cons m rest ih =>
    intro seen results
    obtain ⟨dist, idx⟩ := m
    by_cases hrange : idx < 0 ∨ (mapping.length : Int) ≤ idx
    · have hfalse : inRange mapping (dist, idx) = false := by
        simp [inRange, hrange]
      rw [List.filter_cons]
      simp only [hfalse, Bool.false_eq_true, if_false]
      simp only [aggregateAux]
      rw [if_pos hrange]
      exact ih seen results
    · have htrue : inRange mapping (dist, idx) = true := by
        simp only [inRange]
        rw [if_neg hrange]
      rw [List.filter_cons]
      simp only [htrue, if_true]
      simp only [aggregateAux]
      rw [if_neg hrange, if_neg hrange]
      by_cases hseen : (mapping.getD idx.toNat ⟨"", "", "", none⟩).product_id ∈ seen
      · rw [if_pos hseen, if_pos hseen]
        by_cases hk2 : k ≤ results.length
        · rw [if_pos hk2, if_pos hk2]
        · rw [if_neg hk2, if_neg hk2]
          exact ih seen results
      · rw [if_neg hseen, if_neg hseen]
        by_cases hk2 : k ≤ (results ++
            ([⟨(mapping.getD idx.toNat ⟨"", "", "", none⟩).product_id,
              (mapping.getD idx.toNat ⟨"", "", "", none⟩).product_name, dist,
              (mapping.getD idx.toNat ⟨"", "", "", none⟩).ref_file,
              (mapping.getD idx.toNat ⟨"", "", "", none⟩).price⟩] : List SearchMatch)).length
        · rw [if_pos hk2, if_pos hk2]
        · rw [if_neg hk2, if_neg hk2]
          exact ih _ _

/-- Claim C3: for every raw match sequence and every positive `k`, the
aggregation step returns at most `k` results, never two results with the same
`product_id`, reports for each emitted `product_id` the score of its first
occurrence among the in-range raw matches (the best one, the input being
score-descending), and skips out-of-range reference indices (the output equals
the output on the in-range sublist) rather than erroring. -/
theorem aggregate_spec (mapping : List RefEntry) (k : Nat) (raw : List (Rat × Int))
    (hk : 1 ≤ k) :
    (aggregate mapping k raw).length ≤ k ∧
      ((aggregate mapping k raw).map (fun r => r.product_id)).Nodup ∧
      (∀ r ∈ aggregate mapping k raw,
        firstHit mapping r.product_id raw = some r.similarity) ∧
      aggregate mapping k raw = aggregate mapping k (raw.filter (inRange mapping)) := by
  refine ⟨?_, ?_, ?_, ?_⟩
  · exact aggregateAux_length_le mapping k raw [] [] (by simpa using hk)
  · exact aggregateAux_nodup mapping k raw [] [] List.nodup_nil (by intro r hr; cases hr)
  · intro r hr
    rcases aggregateAux_firstHit mapping k raw [] [] r hr with hmem | ⟨_, h2⟩
    · cases hmem
    · exact h2
  · exact (aggregateAux_filter mapping k raw [] []).symm

/-- Witness for C3: mapping of two products, four raw matches (one out of
range, one duplicate product), `k = 2`. -/
theorem aggregate_spec_witness :
    1 ≤ 2 ∧
      ((aggregate [⟨"a", "A", "f1", none⟩, ⟨"b", "B", "f2", none⟩] 2
          [(9, 0), (8, 5), (7, 0), (6, 1)]).length ≤ 2 ∧
        ((aggregate [⟨"a", "A", "f1", none⟩, ⟨"b", "B", "f2", none⟩] 2
            [(9, 0), (8, 5), (7, 0), (6, 1)]).map (fun r => r.product_id)).Nodup ∧
        (∀ r ∈ aggregate [⟨"a", "A", "f1", none⟩, ⟨"b", "B", "f2", none⟩] 2
            [(9, 0), (8, 5), (7, 0), (6, 1)],
          firstHit [⟨"a", "A", "f1", none⟩, ⟨"b", "B", "f2", none⟩] r.product_id
              [(9, 0), (8, 5), (7, 0), (6, 1)] = some r.similarity) ∧
        aggregate [⟨"a", "A", "f1", none⟩, ⟨"b", "B", "f2", none⟩] 2
            [(9, 0), (8, 5), (7, 0), (6, 1)] =
          aggregate [⟨"a", "A", "f1", none⟩, ⟨"b", "B", "f2", none⟩] 2
            ([(9, 0), (8, 5), (7, 0), (6, 1)].filter
              (inRange [⟨"a", "A", "f1", none⟩, ⟨"b", "B", "f2", none⟩]))) :=
  ⟨by decide,
    aggregate_spec [⟨"a", "A", "f1", none⟩, ⟨"b", "B", "f2", none⟩] 2
      [(9, 0), (8, 5), (7, 0), (6, 1)] (by decide)⟩

/-- Claim C4: for every query, every positive `k` and an index of given size,
the nearest-neighbor search returns at most `min k size` results, sorted by
non-increasing similarity score, ties broken by original insertion order
(equal scores appear in increasing index order). -/
theorem knnSearch_spec (vectors : List Embedding) (q : Embedding) (k : Nat)
    (hk : 1 ≤ k) :
    (knnSearch vectors q k).length ≤ min k vectors.length ∧
      (knnSearch vectors q k).Pairwise (fun a b => b.1 ≤ a.1) ∧
      (knnSearch vectors q k).Pairwise (fun a b => a.1 = b.1 → a.2 < b.2) := by
  have hlen : (knnSearch vectors q k).length ≤ min k vectors.length := by
    simp [knnSearch, List.length_take]
  have hsorted : (List.insertionSort rankLE
      ((vectors.enum).map (fun p => (innerProduct q p.2, p.1)))).Pairwise rankLE :=
    List.sorted_insertionSort rankLE _
  have key : ((vectors.enum).map (fun p => (innerProduct q p.2, p.1))).map Prod.snd =
      (vectors.enum).map Prod.fst := by
    rw [List.map_map]
    rfl
  have hnodup : ((List.insertionSort rankLE
      ((vectors.enum).map (fun p => (innerProduct q p.2, p.1)))).map Prod.snd).Nodup := by
    have hperm := (List.perm_insertionSort rankLE
      ((vectors.enum).map (fun p => (innerProduct q p.2, p.1)))).map Prod.snd
    refine hperm.nodup_iff.mpr ?_
    rw [key]
    exact List.nodup_enum_map_fst vectors
  have hpair : (List.insertionSort rankLE
      ((vectors.enum).map (fun p => (innerProduct q p.2, p.1)))).Pairwise
      (fun a b => rankLE a b ∧ a.2 ≠ b.2) := by
    refine hsorted.and ?_
    exact List.pairwise_map.mp hnodup
  have htake : (knnSearch vectors q k).Pairwise (fun a b => rankLE a b ∧ a.2 ≠ b.2) :=
    hpair.sublist (List.take_sublist k _)
  refine ⟨hlen, ?_, ?_⟩
  · refine htake.imp ?_
    intro a b h
    rcases h with ⟨hr, _⟩
    rcases hr with hlt | ⟨heq, _⟩
    · exact le_of_lt hlt
    · exact le_of_eq heq.symm
  · refine htake.imp ?_
    intro a b h
    rcases h with ⟨hr, hne⟩
    intro heq
    rcases hr with hlt | ⟨_, h2⟩
    · exact absurd heq (ne_of_gt hlt)
    · exact lt_of_le_of_ne h2 hne

/-- Witness for C4: three stored vectors, `k = 2`, with a tie between positions
0 and 2. -/
theorem knnSearch_spec_witness :
    1 ≤ 2 ∧
      ((knnSearch [[1], [2], [1]] [1] 2).length ≤ min 2 [[1], [2], [1]].length ∧
        (knnSearch [[1], [2], [1]] [1] 2).Pairwise (fun a b => b.1 ≤ a.1) ∧
        (knnSearch [[1], [2], [1]] [1] 2).Pairwise (fun a b => a.1 = b.1 → a.2 < b.2)) :=
  ⟨by decide, knnSearch_spec [[1], [2], [1]] [1] 2 (by decide)⟩

/-- The build input with its failing pieces removed: catalog entries whose
reference directory is missing are dropped, and within each remaining entry the
reference images whose decode/embed step fails are dropped. -/
def cleanCatalog : List CatalogProduct → List CatalogProduct
  | [] => []
  | p :: rest =>
    match p.refDir with
    | none => cleanCatalog rest
    | some files =>
      ⟨p.pid, p.name, p.price, some (files.filter (fun f => f.embedResult.isSome))⟩ ::
        cleanCatalog rest

theorem processRefs_filter_isSome (pid pname : String) (price : Option Rat)
    (l : List RefImage) :
    processRefs pid pname price (l.filter (fun f => f.embedResult.isSome)) =
      processRefs pid pname price l := by
  induction l with
  | nil => rfl
  | cons f rest ih =>
    rw [List.filter_cons]
    cases hf : f.embedResult with
    | none =>
      simp only [hf, Option.isSome_none, Bool.false_eq_true, if_false, ih]
      simp [processRefs, hf]
    | some e =>
      simp only [hf, Option.isSome_some, if_true]
      simp [processRefs, hf, ih]

theorem filter_isSome_isImage_comm (files : List RefImage) :
    (files.filter (fun f => f.embedResult.isSome)).filter
      (fun f => isImageFile f.fname) =
      (files.filter (fun f => isImageFile f.fname)).filter
        (fun f => f.embedResult.isSome) := by
  induction files with
  | nil => rfl
  | cons f rest ih =>
    by_cases hf1 : (f.embedResult.isSome : Bool)
    · by_cases hf2 : isImageFile f.fname
      · simp [List.filter_cons, hf1, hf2, ih]
      · simp [List.filter_cons, hf1, hf2, ih]
    · by_cases hf2 : isImageFile f.fname
      · simp [List.filter_cons, hf1, hf2, ih]
      · simp [List.filter_cons, hf1, hf2, ih]

theorem processProduct_clean (p : CatalogProduct) (files : List RefImage)
    (hdir : p.refDir = some files) :
    processProduct
        ⟨p.pid, p.name, p.price, some (files.filter (fun f => f.embedResult.isSome))⟩ =
      processProduct p := by
  have h1 : processProduct
      ⟨p.pid, p.name, p.price, some (files.filter (fun f => f.embedResult.isSome))⟩ =
      processRefs (productId p) p.name p.price
        ((files.filter (fun f => f.embedResult.isSome)).filter
          (fun f => isImageFile f.fname)) := rfl
  have h2 : processProduct p =
      processRefs (productId p) p.name p.price
        (files.filter (fun f => isImageFile f.fname)) := by
    simp only [processProduct, hdir]
  rw [h1, h2, filter_isSome_isImage_comm files]
  exact processRefs_filter_isSome (productId p) p.name p.price
    (files.filter (fun f => isImageFile f.fname))

/-- Claim C6: a per-image decode/embed failure or a missing reference directory
is recovered locally — the build of the index data over the full catalog
returns exactly what it returns over the catalog with those failing pieces
removed, i.e. the references accumulated from all remaining images and
products. -/
theorem build_skips_failures (catalog : List CatalogProduct) :
    buildIndexData (cleanCatalog catalog) = buildIndexData catalog := by
  induction catalog with
  | nil => rfl
  | cons p rest ih =>
    cases hdir : p.refDir with
    | none =>
      simp only [cleanCatalog, hdir, ih]
      simp [buildIndexData, processProduct, hdir]
    | some files =>
      simp only [cleanCatalog, hdir]
      simp only [buildIndexData]
      rw [ih, processProduct_clean p files hdir]

theorem processRefs_length (pid pname : String) (price : Option Rat)
    (l : List RefImage) :
    (processRefs pid pname price l).1.length = (processRefs pid pname price l).2.length := by
  induction l with
  | nil => rfl
  | cons f rest ih =>
    cases hf : f.embedResult with
    | none => simpa [processRefs, hf] using ih
    | some e => simp [processRefs, hf, ih]

theorem buildIndexData_length (catalog : List CatalogProduct) :
    (buildIndexData catalog).1.length = (buildIndexData catalog).2.length := by
  induction catalog with
  | nil => rfl
  | cons p rest ih =>
    have hp : (processProduct p).1.length = (processProduct p).2.length := by
      unfold processProduct
      cases p.refDir with
      | none => rfl
      | some files => exact processRefs_length _ _ _ _
    simp only [buildIndexData, List.length_append, hp, ih]

theorem mem_processRefs (pid pname : String) (price : Option Rat)
    (l : List RefImage) (e : Embedding)
    (he : e ∈ (processRefs pid pname price l).1) :
    ∃ f ∈ l, f.embedResult = some e := by
  induction l with
  | nil => cases he
  | cons f rest ih =>
    cases hf : f.embedResult with
    | none =>
      simp only [processRefs, hf] at he
      obtain ⟨g, hg, hge⟩ := ih he
      exact ⟨g, List.mem_cons_of_mem _ hg, hge⟩
    | some e2 =>
      simp only [processRefs, hf, List.mem_cons] at he
      rcases he with he | he
      · exact ⟨f, List.mem_cons_self _ _, he ▸ hf⟩
      · obtain ⟨g, hg, hge⟩ := ih he
        exact ⟨g, List.mem_cons_of_mem _ hg, hge⟩

theorem mem_buildIndexData (catalog : List CatalogProduct) (e : Embedding)
    (he : e ∈ (buildIndexData catalog).1) :
    ∃ p ∈ catalog, ∃ files, p.refDir = some files ∧
      ∃ f ∈ files, f.embedResult = some e := by
  induction catalog with
  | nil => cases he
  | cons p rest ih =>
    simp only [buildIndexData, List.mem_append] at he
    rcases he with he | he
    · unfold processProduct at he
      cases hdir : p.refDir with
      | none =>
        rw [hdir] at he
        cases he
      | some files =>
        rw [hdir] at he
        obtain ⟨f, hf, hfe⟩ := mem_processRefs _ _ _ _ e he
        exact ⟨p, List.mem_cons_self _ _, files, hdir, f,
          (List.mem_filter.mp hf).1, hfe⟩
    · obtain ⟨p2, hp2, files, hdir2, f, hf, hfe⟩ := ih he
      exact ⟨p2, List.mem_cons_of_mem _ hp2, files, hdir2, f, hf, hfe⟩

/-- Claim C8: after every successful build (at least one embedding extracted),
the number of vectors stored in the new index equals the number of entries in
the product mapping, and — given that the external embedding function always
produces vectors of the configured dimension — every stored embedding has
dimension `EMBEDDING_DIM`.  The state transition replaces the index wholesale
(the new state's index is the freshly built one). -/
theorem build_success_invariant (st : ServiceState) (cat : List CatalogProduct)
    (hne : (buildIndexData cat).1 ≠ [])
    (hdim : ∀ p ∈ cat, ∀ files, p.refDir = some files →
      ∀ f ∈ files, ∀ e, f.embedResult = some e → e.length = EMBEDDING_DIM) :
    ∃ idx, (build_faiss_index st (some cat)).faiss_index = some idx ∧
      idx.vectors.length = (build_faiss_index st (some cat)).product_mapping.length ∧
      ∀ v ∈ idx.vectors, v.length = EMBEDDING_DIM := by
  refine ⟨⟨(buildIndexData cat).1⟩, ?_, ?_, ?_⟩
  · simp [build_faiss_index, hne]
  · simp [build_faiss_index, hne, buildIndexData_length]
  · intro v hv
    obtain ⟨p, hp, files, hdir, f, hf, hfe⟩ := mem_buildIndexData cat v hv
    exact hdim p hp files hdir f hf v hfe

/-- Witness for C8: a one-product catalog with a single reference image whose
embedding has the configured dimension, built from the uninitialized state. -/
theorem build_success_invariant_witness :
    (buildIndexData [⟨some "mug", "Mug", none,
        some [⟨"a.jpg", some (List.replicate EMBEDDING_DIM 1)⟩]⟩]).1 ≠ [] ∧
      (∀ p ∈ ([⟨some "mug", "Mug", none,
          some [⟨"a.jpg", some (List.replicate EMBEDDING_DIM 1)⟩]⟩] :
            List CatalogProduct), ∀ files, p.refDir = some files →
        ∀ f ∈ files, ∀ e, f.embedResult = some e → e.length = EMBEDDING_DIM) ∧
      (∃ idx, (build_faiss_index ⟨none, []⟩ (some [⟨some "mug", "Mug", none,
            some [⟨"a.jpg", some (List.replicate EMBEDDING_DIM 1)⟩]⟩])).faiss_index =
          some idx ∧
        idx.vectors.length = (build_faiss_index ⟨none, []⟩
            (some [⟨some "mug", "Mug", none,
              some [⟨"a.jpg",
                some (List.replicate EMBEDDING_DIM 1)⟩]⟩])).product_mapping.length ∧
        ∀ v ∈ idx.vectors, v.length = EMBEDDING_DIM) := by
  have himg : isImageFile "a.jpg" = true := by decide
  have hbd : (buildIndexData [⟨some "mug", "Mug", none,
      some [⟨"a.jpg", some (List.replicate EMBEDDING_DIM 1)⟩]⟩]).1 =
      [List.replicate EMBEDDING_DIM 1] := by
    simp [buildIndexData, processProduct, processRefs, List.filter_cons, himg]
  have hne : (buildIndexData [⟨some "mug", "Mug", none,
      some [⟨"a.jpg", some (List.replicate EMBEDDING_DIM 1)⟩]⟩]).1 ≠ [] := by
    rw [hbd]
    simp
  have hdim : ∀ p ∈ ([⟨some "mug", "Mug", none,
      some [⟨"a.jpg", some (List.replicate EMBEDDING_DIM 1)⟩]⟩] :
        List CatalogProduct), ∀ files, p.refDir = some files →
      ∀ f ∈ files, ∀ e, f.embedResult = some e → e.length = EMBEDDING_DIM := by
    intro p hp files hfiles f hf e he
    simp only [List.mem_singleton] at hp
    subst hp
    have hfiles2 : some [(⟨"a.jpg", some (List.replicate EMBEDDING_DIM 1)⟩ : RefImage)] =
        some files := hfiles
    obtain rfl := (Option.some.inj hfiles2).symm
    simp only [List.mem_singleton] at hf
    subst hf
    have he2 : some (List.replicate EMBEDDING_DIM (1 : Rat)) = some e := he
    obtain rfl := (Option.some.inj he2).symm
    rw [List.length_replicate]
  exact ⟨hne, hdim, build_success_invariant ⟨none, []⟩ _ hne hdim⟩

end FaissService
